import Mathlib

/-!
# Verification of `winton_kafka_streams/processor/_stream_thread.py`

A shallow embedding of the stream-worker module (`StreamThread`) of the
winton-kafka-streams repository, together with proofs and refutations of the
frozen claims about it.

Modelling conventions:
* Python in-place mutation of the worker object is modelled by explicit state
  passing on a `WorkerState` structure.
* Python exceptions are modelled by an `Exc` value threaded alongside the
  state: an operation returns its (possibly partially mutated) state, the list
  of observable events it emitted (log warnings, commit calls, committed
  offsets, punctuation calls), and `Option Exc` — `some e` meaning the
  exception `e` propagates out of the operation.
* `confluent_kafka` message objects are modelled by `KRecord`; a poll stream is
  a list of `Option KRecord` consumed one element per `consumer.poll` call
  (`none` = the poll timed out with no message).
* `_stream_task.py` is not part of the sources; the `StreamTask` operations are
  modelled from the spec (each such definition is marked
  `Modelled from the spec:` in its doc comment).
-/

/-- A Kafka topic-partition, as produced by the rebalance protocol and held in
a task's partition group. -/
structure TopicPartition where
  topic : String
  partition : Nat
deriving DecidableEq, Repr

/-- Error attached to a polled record: `confluent_kafka` signals the special
`KafkaError._PARTITION_EOF` code or some other error code. -/
inductive KError where
  | partitionEOF : KError
  | otherErr : Nat → KError
deriving DecidableEq, Repr

/-- A polled message (`confluent_kafka` Message): topic, partition, offset,
value, and an optional error (`record.error()` is `None`/falsy for a normal
record). -/
structure KRecord where
  topic : String
  partition : Nat
  offset : Nat
  value : String
  error : Option KError
deriving DecidableEq, Repr

/-- Python exceptions relevant to this module. `nameError` arises when an
`except` clause references a name that is not bound in the module namespace. -/
inductive Exc where
  | commitFailed : Exc
  | kafka : Exc
  | nameError : Exc
  | indexError : Exc
  | otherExc : Exc
deriving DecidableEq, Repr

/-- Names bound at module level in `_stream_thread.py`: the imports
(`logging`, `threading`, `Enum`, `KafkaError`, `StreamTask`) and the class
being defined. Notably `CommitFailedException` and `KafkaException` are NOT
imported anywhere in the file. -/
def moduleNames : List String :=
  ["logging", "threading", "Enum", "KafkaError", "StreamTask", "StreamThread"]

/-- Python name resolution at module level: an `except NAME` clause evaluates
`NAME` when an exception is being matched; an unbound name raises `NameError`. -/
def nameDefined (n : String) : Bool := moduleNames.contains n

namespace StreamThread

/-- `StreamThread.State`: the worker lifecycle states. -/
inductive State where
  | NOT_RUNNING : State
  | RUNNING : State
  | PARTITIONS_REVOKED : State
  | ASSIGNING_PARTITIONS : State
  | PENDING_SHUTDOWN : State
deriving DecidableEq, Repr

/-- `State.valid_transition_to`, transcribed branch by branch from the source. -/
def State.valid_transition_to (s new_state : State) : Bool :=
  match s with
  | .NOT_RUNNING => new_state = .RUNNING
  | .RUNNING => new_state = .PARTITIONS_REVOKED || new_state = .PENDING_SHUTDOWN
  | .PARTITIONS_REVOKED => new_state = .PENDING_SHUTDOWN || new_state = .ASSIGNING_PARTITIONS
  | .ASSIGNING_PARTITIONS => new_state = .RUNNING || new_state = .PENDING_SHUTDOWN
  | .PENDING_SHUTDOWN => new_state = .NOT_RUNNING

/-- `State.is_running`: `not self in (NOT_RUNNING, PENDING_SHUTDOWN)`. -/
def State.is_running (s : State) : Bool :=
  !(s = .NOT_RUNNING || s = .PENDING_SHUTDOWN)

end StreamThread

/-- A stream task. The fields are the observable task state the worker code
touches. Modelled from the spec: `_stream_task.py` is not among the sources;
per §4.2 a task owns its partition group, buffers input records in offset
order (one FIFO queue suffices under the current one-partition-per-task
grouping), and tracks per partition the consumed-but-not-committed next
offset. `commitFails` models the broker-side outcome of this task's
`commit()` call: `some e` means `task.commit()` raises `e`. -/
structure StreamTask where
  task_id : String
  partitions : List TopicPartition
  queue : List KRecord
  pendingOffsets : List (TopicPartition × Nat)
  commitFails : Option Exc
deriving DecidableEq, Repr

/-- Observable events emitted by the worker: state-transition log lines
(warning vs info), a `StreamThread.commit(task)` invocation, an offset
actually persisted by a task commit, and a `maybe_punctuate` invocation. -/
inductive Event where
  | warnedTransition : StreamThread.State → StreamThread.State → Event
  | infoTransition : StreamThread.State → StreamThread.State → Event
  | commitCalled : String → Event
  | offsetCommitted : TopicPartition → Nat → Event
  | punctuateCalled : String → Event
deriving DecidableEq, Repr

/-- The mutable state of a `StreamThread` object relevant to the claims:
`self.tasks`, `self.state`, and whether `self.consumer.close()` was called. -/
structure WorkerState where
  tasks : List StreamTask
  state : StreamThread.State
  consumerClosed : Bool
deriving DecidableEq, Repr

namespace StreamTask

/-- `StreamTask.add_records`. Modelled from the spec: the task buffers the
delivered records at the tail of its input queue (FIFO, §4.2). -/
def add_records (t : StreamTask) (rs : List KRecord) : StreamTask :=
  { t with queue := t.queue ++ rs }

/-- Replace (or create) the pending-offset entry of one partition. -/
def updatePending (tp : TopicPartition) (off : Nat) :
    List (TopicPartition × Nat) → List (TopicPartition × Nat)
  | [] => [(tp, off)]
  | (tp', o') :: rest =>
      if tp' = tp then (tp, off) :: rest else (tp', o') :: updatePending tp off rest

/-- `StreamTask.process`. Modelled from the spec: dequeue the next buffered
record if there is one, advance that partition's consumed-offset marker to
the next offset to consume, drive the record through the topology, and
report whether progress was made (§4.2). -/
def process (t : StreamTask) : Bool × StreamTask :=
  match t.queue with
  | [] => (false, t)
  | r :: rest =>
      (true, { t with
                queue := rest
                pendingOffsets :=
                  updatePending ⟨r.topic, r.partition⟩ (r.offset + 1) t.pendingOffsets })

/-- `StreamTask.maybe_punctuate`. Modelled from the spec: invokes due
punctuation callbacks on the task's processors (§4.2); the only effect
observable to the worker is that the call happened, recorded as an event. -/
def maybe_punctuate (t : StreamTask) : StreamTask × List Event :=
  (t, [Event.punctuateCalled t.task_id])

/-- `StreamTask.commitNeeded`. Modelled from the spec: true iff some partition
has a consumed-but-not-committed offset (§4.2). -/
def commitNeeded (t : StreamTask) : Bool := !t.pendingOffsets.isEmpty

/-- `StreamTask.commit`. Modelled from the spec: persist the next offset to
consume for every pending partition, then clear the pending markers (§4.2);
the broker interaction may raise, which `commitFails` parameterises. -/
def commit (t : StreamTask) : StreamTask × List Event × Option Exc :=
  match t.commitFails with
  | some e => (t, [], some e)
  | none =>
      ({ t with pendingOffsets := [] },
       t.pendingOffsets.map (fun p => Event.offsetCommitted p.1 p.2),
       none)

end StreamTask

namespace StreamThread

/-- `StreamThread.set_state`: warn when the transition is not valid (info
otherwise) and apply the new state unconditionally. -/
def set_state (w : WorkerState) (new_state : State) : WorkerState × List Event :=
  let old_state := w.state
  let ev :=
    if !old_state.valid_transition_to new_state then
      Event.warnedTransition old_state new_state
    else
      Event.infoTransition old_state new_state
  ({ w with state := new_state }, [ev])

/-- `StreamThread.set_state_when_not_in_pending_shutdown`. -/
def set_state_when_not_in_pending_shutdown (w : WorkerState) (new_state : State) :
    WorkerState × List Event :=
  if w.state = State.PENDING_SHUTDOWN then (w, []) else set_state w new_state

/-- `StreamThread.still_running`. -/
def still_running (w : WorkerState) : Bool := w.state.is_running

/-- `StreamThread.close`: unguarded transition to PENDING_SHUTDOWN, then close
the consumer. -/
def close (w : WorkerState) : WorkerState × List Event :=
  let (w1, evs) := set_state w State.PENDING_SHUTDOWN
  ({ w1 with consumerClosed := true }, evs)

/-- `StreamThread.shutdown`. -/
def shutdown (w : WorkerState) : WorkerState × List Event :=
  set_state w State.NOT_RUNNING

end StreamThread

/-! ## Decimal rendering

`add_stream_tasks` builds each task id with the f-string
`f'{topic_partition.topic}_{topic_partition.partition}'`; `pyStr` embeds
Python's `str` on a non-negative integer (most-significant digit first,
no sign, no leading zeros, `0 ↦ "0"`). -/

/-- Decimal digits of `n`, most significant first, via repeated division;
the first argument is structural fuel (any fuel `≥ n` is exact). -/
def toDecAux : Nat → Nat → List Char
  | 0, _ => []
  | fuel + 1, n =>
      if n = 0 then [] else toDecAux fuel (n / 10) ++ [Nat.digitChar (n % 10)]

/-- Python `str` on a non-negative integer. -/
def pyStr (n : Nat) : String :=
  if n = 0 then "0" else String.mk (toDecAux n n)

/-- Value of a most-significant-first digit string; left inverse of the
rendering, used to prove `pyStr` injective. -/
def chval (l : List Char) : Nat :=
  l.foldl (fun a c => 10 * a + (c.toNat - 48)) 0

namespace StreamThread

/-- The dict-comprehension key `f'{tp.topic}_{tp.partition}'` of
`add_stream_tasks`. -/
def taskKey (tp : TopicPartition) : String :=
  tp.topic ++ "_" ++ pyStr tp.partition

/-- One insertion into a Python dict modelled as an ordered association list:
a duplicate key overwrites the value in place (keeping the original key
position); a fresh key is appended. -/
def dictInsert (k : String) (v : List TopicPartition) :
    List (String × List TopicPartition) → List (String × List TopicPartition)
  | [] => [(k, v)]
  | (k', v') :: rest =>
      if k' = k then (k', v) :: rest else (k', v') :: dictInsert k v rest

/-- The dict comprehension of `add_stream_tasks`:
`{f'{tp.topic}_{tp.partition}': {tp} for tp in assignment}` (insertion
order, singleton partition set per key). -/
def grouped_tasks (assignment : List TopicPartition) :
    List (String × List TopicPartition) :=
  assignment.foldl (fun d tp => dictInsert (taskKey tp) [tp] d) []

end StreamThread

/-- The `StreamTask` constructor call made by `add_stream_tasks`: a fresh task
for `task_id` owning `partitions`, with no buffered records and no pending
offsets (the config/topology/consumer/producer arguments carry no state the
claims observe). -/
def StreamTask.new (task_id : String) (partitions : List TopicPartition) : StreamTask :=
  { task_id := task_id, partitions := partitions, queue := [],
    pendingOffsets := [], commitFails := none }

namespace StreamThread

/-- `StreamThread.add_stream_tasks`: replace `self.tasks` with one fresh task
per entry of the grouped dict. -/
def add_stream_tasks (w : WorkerState) (assignment : List TopicPartition) : WorkerState :=
  { w with tasks := (grouped_tasks assignment).map (fun p => StreamTask.new p.1 p.2) }

/-- `StreamThread.on_assign`: guarded transition to ASSIGNING_PARTITIONS,
rebuild the task set, guarded transition to RUNNING. -/
def on_assign (w : WorkerState) (partitions : List TopicPartition) :
    WorkerState × List Event :=
  let (w1, e1) := set_state_when_not_in_pending_shutdown w State.ASSIGNING_PARTITIONS
  let w2 := add_stream_tasks w1 partitions
  let (w3, e3) := set_state_when_not_in_pending_shutdown w2 State.RUNNING
  (w3, e1 ++ e3)

/-- `StreamThread.commit(task)`: call `task.commit()` inside
`try/except CommitFailedException/except KafkaException`. Since neither
`CommitFailedException` nor `KafkaException` is bound in the module namespace
(see `moduleNames`), Python raises `NameError` while evaluating the first
handler whenever `task.commit()` raises at all. -/
def commit (t : StreamTask) : StreamTask × List Event × Option Exc :=
  let r := t.commit
  let evs := Event.commitCalled t.task_id :: r.2.1
  match r.2.2 with
  | none => (r.1, evs, none)
  | some e =>
      if nameDefined "CommitFailedException" then
        match e with
        | .commitFailed => (r.1, evs, none)
        | _ =>
            if nameDefined "KafkaException" then (r.1, evs, some e)
            else (r.1, evs, some .nameError)
      else (r.1, evs, some .nameError)

/-- `StreamThread.commitAll`: commit each task of `self.tasks` in order; the
in-place task mutations made before an exception are kept, the exception
propagates. -/
def commitAll : List StreamTask → List StreamTask × List Event × Option Exc
  | [] => ([], [], none)
  | t :: ts =>
      let r := commit t
      match r.2.2 with
      | some e => (r.1 :: ts, r.2.1, some e)
      | none =>
          let rest := commitAll ts
          (r.1 :: rest.1, r.2.1 ++ rest.2.1, rest.2.2)

/-- The `finally` block of `StreamThread.run` (`commitAll` then `shutdown`),
given the worker state at loop exit and the exception (if any) propagating
out of the loop body. An exception raised inside the `finally` block replaces
the in-flight one and skips `shutdown`; otherwise the loop's exception is
re-raised after the cleanup. -/
def run_cleanup (w : WorkerState) (loopExc : Option Exc) :
    WorkerState × List Event × Option Exc :=
  let r := commitAll w.tasks
  let w1 := { w with tasks := r.1 }
  match r.2.2 with
  | some e => (w1, r.2.1, some e)
  | none =>
      let s := shutdown w1
      (s.1, r.2.1 ++ s.2, loopExc)

/-- `StreamThread.on_revoke`: `commitAll`, guarded transition to
PARTITIONS_REVOKED, clear the task set. An exception out of `commitAll`
propagates before the task set is cleared. -/
def on_revoke (w : WorkerState) : WorkerState × List Event × Option Exc :=
  let r := commitAll w.tasks
  match r.2.2 with
  | some e => ({ w with tasks := r.1 }, r.2.1, some e)
  | none =>
      let s := set_state_when_not_in_pending_shutdown { w with tasks := r.1 }
                 State.PARTITIONS_REVOKED
      ({ s.1 with tasks := [] }, r.2.1 ++ s.2, none)

end StreamThread

/-! ## Polling -/

/-- One `consumer.poll` call against a modelled poll stream: the head element
is returned (`none` = no message before the timeout); an exhausted stream
keeps returning `none`. -/
def pollOne : List (Option KRecord) → Option KRecord × List (Option KRecord)
  | [] => (none, [])
  | h :: t => (h, t)

namespace StreamThread

/-- The `while record is not None` loop of `poll_requests`, transcribed branch
by branch: a clean record is appended and the consumer polled again; a
PARTITION_EOF record is skipped and the consumer polled again; on any other
record error the source only logs — `record` is NOT re-assigned, so the loop
state repeats. `fuel` bounds the number of iterations; `none` means the loop
did not finish within `fuel` iterations (for any fuel). -/
def poll_requests_aux :
    Nat → List (Option KRecord) → Option KRecord → List KRecord → Option (List KRecord)
  | 0, _, _, _ => none
  | _ + 1, _, none, acc => some acc.reverse
  | fuel + 1, polls, some r, acc =>
      match r.error with
      | none =>
          let p := pollOne polls
          poll_requests_aux fuel p.2 p.1 (r :: acc)
      | some KError.partitionEOF =>
          let p := pollOne polls
          poll_requests_aux fuel p.2 p.1 acc
      | some (KError.otherErr _) =>
          poll_requests_aux fuel polls (some r) acc

/-- `StreamThread.poll_requests` run against a poll stream with an iteration
budget: the initial poll, then the drain loop. -/
def poll_requests (polls : List (Option KRecord)) (fuel : Nat) : Option (List KRecord) :=
  let p := pollOne polls
  poll_requests_aux fuel p.2 p.1 []

end StreamThread

/-! ## Routing and the processing loop -/

namespace StreamThread

/-- The loop body of `add_records_to_tasks`:
`self.tasks[record.partition()].add_records([record])` — a plain Python list
index by the record's partition number (IndexError when out of range). -/
def addRecordsAux : List StreamTask → List KRecord → List StreamTask × Option Exc
  | ts, [] => (ts, none)
  | ts, r :: rs =>
      if h : r.partition < ts.length then
        addRecordsAux (ts.set r.partition ((ts.get ⟨r.partition, h⟩).add_records [r])) rs
      else (ts, some .indexError)

/-- `StreamThread.add_records_to_tasks`. -/
def add_records_to_tasks (w : WorkerState) (records : List KRecord) :
    WorkerState × Option Exc :=
  let r := addRecordsAux w.tasks records
  ({ w with tasks := r.1 }, r.2)

/-- One round of the `process_and_punctuate` loop: ask every task to process
one record, returning the updated tasks and how many made progress. -/
def process_round : List StreamTask → List StreamTask × Nat
  | [] => ([], 0)
  | t :: ts =>
      let p := t.process
      let rest := process_round ts
      (p.2 :: rest.1, (if p.1 then 1 else 0) + rest.2)

/-- Total number of buffered records across the tasks (termination measure). -/
def totalQueued (ts : List StreamTask) : Nat :=
  (ts.map (fun t => t.queue.length)).sum

theorem process_round_totalQueued (ts : List StreamTask) :
    totalQueued (process_round ts).1 + (process_round ts).2 = totalQueued ts := by
  induction ts with
  | nil => rfl
  | cons t ts ih =>
      simp only [process_round, totalQueued, List.map_cons, List.sum_cons] at *
      cases hq : t.queue with
      | nil =>
          simp [StreamTask.process, hq]
          omega
      | cons r rest =>
          simp [StreamTask.process, hq]
          omega

/-- The `while True` loop of `process_and_punctuate`: run rounds until a round
makes zero progress. -/
def process_loop (ts : List StreamTask) : List StreamTask :=
  match h : process_round ts with
  | (ts1, n) => if n = 0 then ts1 else process_loop ts1
termination_by totalQueued ts
decreasing_by
  have hq := process_round_totalQueued ts
  rw [h] at hq
  simp only at hq
  omega

/-- The second phase of `process_and_punctuate`: for each task,
`maybe_punctuate`, then `commit` if `commitNeeded()`. A commit exception
propagates, keeping the mutations already made. -/
def punctuate_and_commit : List StreamTask → List StreamTask × List Event × Option Exc
  | [] => ([], [], none)
  | t :: ts =>
      let m := t.maybe_punctuate
      if m.1.commitNeeded then
        let c := commit m.1
        match c.2.2 with
        | some e => (c.1 :: ts, m.2 ++ c.2.1, some e)
        | none =>
            let rest := punctuate_and_commit ts
            (c.1 :: rest.1, m.2 ++ c.2.1 ++ rest.2.1, rest.2.2)
      else
        let rest := punctuate_and_commit ts
        (m.1 :: rest.1, m.2 ++ rest.2.1, rest.2.2)

/-- `StreamThread.process_and_punctuate`. -/
def process_and_punctuate (w : WorkerState) : WorkerState × List Event × Option Exc :=
  let ts1 := process_loop w.tasks
  let r := punctuate_and_commit ts1
  ({ w with tasks := r.1 }, r.2.1, r.2.2)

/-- One iteration of the poll-loop body of `run`, given the batch returned by
`poll_requests`: the `if records:` guard skips routing and processing
entirely when the batch is empty. -/
def run_iteration (w : WorkerState) (records : List KRecord) :
    WorkerState × List Event × Option Exc :=
  if records.isEmpty then (w, [], none)
  else
    let a := add_records_to_tasks w records
    match a.2 with
    | some e => (a.1, [], some e)
    | none => process_and_punctuate a.1

end StreamThread

/-! ## Properties of the decimal rendering and of the task keys -/

theorem digitChar_sub_48 : ∀ d : Nat, d < 10 → (Nat.digitChar d).toNat - 48 = d := by
  decide

theorem digitChar_ne_underscore : ∀ d : Nat, d < 10 → Nat.digitChar d ≠ '_' := by
  decide

theorem chval_append_singleton (l : List Char) (c : Char) :
    chval (l ++ [c]) = 10 * chval l + (c.toNat - 48) := by
  simp [chval, List.foldl_append]

theorem chval_toDecAux : ∀ fuel n : Nat, n ≤ fuel → chval (toDecAux fuel n) = n := by
  intro fuel
  induction fuel with
  | zero =>
      intro n hn
      interval_cases n
      rfl
  | succ fuel ih =>
      intro n hn
      by_cases h0 : n = 0
      · subst h0; rfl
      · have hdiv : n / 10 ≤ fuel := by
          have : n / 10 < n := Nat.div_lt_self (Nat.pos_of_ne_zero h0) (by norm_num)
          omega
        have hmod : n % 10 < 10 := Nat.mod_lt _ (by norm_num)
        simp only [toDecAux, h0, if_false, chval_append_singleton, ih _ hdiv,
          digitChar_sub_48 _ hmod]
        omega

theorem chval_pyStr (n : Nat) : chval (pyStr n).data = n := by
  by_cases h0 : n = 0
  · subst h0; rfl
  · simp only [pyStr, h0, if_false]
    exact chval_toDecAux n n le_rfl

theorem pyStr_injective : Function.Injective pyStr := by
  intro m n h
  have := congrArg (fun s => chval s.data) h
  simpa [chval_pyStr] using this

theorem toDecAux_no_underscore :
    ∀ fuel n : Nat, '_' ∉ toDecAux fuel n := by
  intro fuel
  induction fuel with
  | zero => intro n; simp [toDecAux]
  | succ fuel ih =>
      intro n
      by_cases h0 : n = 0
      · simp [toDecAux, h0]
      · simp only [toDecAux, h0, if_false, List.mem_append, List.mem_singleton]
        push_neg
        exact ⟨ih _, fun h => digitChar_ne_underscore (n % 10) (Nat.mod_lt _ (by norm_num)) h.symm⟩

theorem pyStr_no_underscore (n : Nat) : '_' ∉ (pyStr n).data := by
  by_cases h0 : n = 0
  · subst h0; decide
  · simp only [pyStr, h0, if_false]
    exact toDecAux_no_underscore n n

/-- Splitting at a separator that occurs in neither left part is unique. -/
theorem sep_split : ∀ (u v p q : List Char), '_' ∉ u → '_' ∉ v →
    u ++ '_' :: p = v ++ '_' :: q → u = v ∧ p = q := by
  intro u
  induction u with
  | nil =>
      intro v p q _ hv h
      cases v with
      | nil => simpa using h
      | cons c v2 =>
          simp only [List.nil_append, List.cons_append, List.cons.injEq] at h
          exact absurd (h.1 ▸ List.mem_cons_self c v2) hv
  | cons c u2 ih =>
      intro v p q hu hv h
      cases v with
      | nil =>
          simp only [List.cons_append, List.nil_append, List.cons.injEq] at h
          exact absurd (h.1 ▸ List.mem_cons_self c u2) (h.1 ▸ hu)
      | cons d v2 =>
          simp only [List.cons_append, List.cons.injEq] at h
          have hu2 : '_' ∉ u2 := fun hm => hu (List.mem_cons_of_mem _ hm)
          have hv2 : '_' ∉ v2 := fun hm => hv (List.mem_cons_of_mem _ hm)
          obtain ⟨he, hp⟩ := ih v2 p q hu2 hv2 h.2
          exact ⟨by rw [h.1, he], hp⟩

namespace StreamThread

theorem taskKey_injective : Function.Injective taskKey := by
  intro tp1 tp2 h
  have hdata : tp1.topic.data ++ '_' :: (pyStr tp1.partition).data
      = tp2.topic.data ++ '_' :: (pyStr tp2.partition).data := by
    have := congrArg String.data h
    simpa [taskKey, String.data_append] using this
  have hrev := congrArg List.reverse hdata
  simp only [List.reverse_append, List.reverse_cons] at hrev
  have hrev2 : (pyStr tp1.partition).data.reverse ++ '_' :: tp1.topic.data.reverse
      = (pyStr tp2.partition).data.reverse ++ '_' :: tp2.topic.data.reverse := by
    simpa [List.append_assoc] using hrev
  have h1 : '_' ∉ (pyStr tp1.partition).data.reverse := by
    simpa [List.mem_reverse] using pyStr_no_underscore tp1.partition
  have h2 : '_' ∉ (pyStr tp2.partition).data.reverse := by
    simpa [List.mem_reverse] using pyStr_no_underscore tp2.partition
  obtain ⟨hs, ht⟩ := sep_split _ _ _ _ h1 h2 hrev2
  have hpart : tp1.partition = tp2.partition := by
    apply pyStr_injective
    apply String.ext
    exact List.reverse_injective hs
  have htopic : tp1.topic = tp2.topic := String.ext (List.reverse_injective ht)
  cases tp1; cases tp2
  simp_all

theorem dictInsert_of_not_mem (k : String) (v : List TopicPartition)
    (d : List (String × List TopicPartition)) (h : k ∉ d.map Prod.fst) :
    dictInsert k v d = d ++ [(k, v)] := by
  induction d with
  | nil => rfl
  | cons e d ih =>
      obtain ⟨k2, v2⟩ := e
      simp only [List.map_cons, List.mem_cons] at h
      push_neg at h
      simp only [dictInsert]
      rw [if_neg (fun he : k2 = k => h.1 he.symm)]
      simp only [List.cons_append, List.cons.injEq, true_and]
      exact ih h.2

theorem grouped_foldl (l : List TopicPartition) (d : List (String × List TopicPartition))
    (hd : ∀ tp ∈ l, taskKey tp ∉ d.map Prod.fst) (hl : (l.map taskKey).Nodup) :
    l.foldl (fun d tp => dictInsert (taskKey tp) [tp] d) d
      = d ++ l.map (fun tp => (taskKey tp, [tp])) := by
  induction l generalizing d with
  | nil => simp
  | cons tp l ih =>
      simp only [List.map_cons, List.nodup_cons, List.mem_map] at hl
      simp only [List.foldl_cons]
      rw [dictInsert_of_not_mem _ _ _ (hd tp (List.mem_cons_self tp l))]
      rw [ih (d ++ [(taskKey tp, [tp])]) ?_ hl.2]
      · simp
      · intro tp2 htp2
        simp only [List.map_append, List.mem_append, List.map_cons, List.map_nil,
          List.mem_singleton]
        push_neg
        refine ⟨hd tp2 (List.mem_cons_of_mem _ htp2), fun he => hl.1 ?_⟩
        exact ⟨tp2, htp2, he⟩

theorem grouped_tasks_of_nodup (l : List TopicPartition) (h : l.Nodup) :
    grouped_tasks l = l.map (fun tp => (taskKey tp, [tp])) := by
  have hkeys : (l.map taskKey).Nodup := h.map (f := taskKey) taskKey_injective
  simpa using grouped_foldl l [] (by simp) hkeys

end StreamThread

/-! ## Commit bookkeeping helpers -/

/-- A task after a successful `commit()`: pending markers cleared. -/
def clearPending (t : StreamTask) : StreamTask := { t with pendingOffsets := [] }

/-- The events emitted by one successful `StreamThread.commit(task)` call. -/
def commitEvents (t : StreamTask) : List Event :=
  Event.commitCalled t.task_id
    :: t.pendingOffsets.map (fun p => Event.offsetCommitted p.1 p.2)

/-- The events emitted by a successful `commitAll` over the given tasks. -/
def commitTrace : List StreamTask → List Event
  | [] => []
  | t :: ts => commitEvents t ++ commitTrace ts

/-- All consumed-but-not-committed offsets across the given tasks. -/
def pendingAll : List StreamTask → List (TopicPartition × Nat)
  | [] => []
  | t :: ts => t.pendingOffsets ++ pendingAll ts

namespace StreamThread

theorem commit_of_ok (t : StreamTask) (h : t.commitFails = none) :
    commit t = (clearPending t, commitEvents t, none) := by
  simp [commit, StreamTask.commit, h, clearPending, commitEvents]

theorem commitAll_of_ok (ts : List StreamTask) (h : ∀ t ∈ ts, t.commitFails = none) :
    commitAll ts = (ts.map clearPending, commitTrace ts, none) := by
  induction ts with
  | nil => rfl
  | cons t ts ih =>
      rw [commitAll, commit_of_ok t (h t (List.mem_cons_self t ts))]
      rw [ih (fun t2 ht2 => h t2 (List.mem_cons_of_mem t ht2))]
      simp [commitTrace]

theorem commitCalled_mem_commitTrace (ts : List StreamTask) (t : StreamTask)
    (h : t ∈ ts) : Event.commitCalled t.task_id ∈ commitTrace ts := by
  induction ts with
  | nil => cases h
  | cons t2 ts ih =>
      rcases List.mem_cons.mp h with h1 | h1
      · subst h1
        simp [commitTrace, commitEvents]
      · simp only [commitTrace, List.mem_append]
        exact Or.inr (ih h1)

theorem count_offsetCommitted_map (pend : List (TopicPartition × Nat))
    (tp : TopicPartition) (o : Nat) :
    ((pend.map (fun p => Event.offsetCommitted p.1 p.2)).count (Event.offsetCommitted tp o))
      = pend.countP (fun p => p.1 = tp ∧ p.2 = o) := by
  induction pend with
  | nil => rfl
  | cons a l ih =>
      simp only [List.map_cons, List.count_cons, List.countP_cons, ih]
      by_cases h1 : a.1 = tp <;> by_cases h2 : a.2 = o <;> simp [h1, h2]

theorem count_offsetCommitted_commitTrace (ts : List StreamTask)
    (tp : TopicPartition) (o : Nat) :
    (commitTrace ts).count (Event.offsetCommitted tp o)
      = (pendingAll ts).countP (fun p => p.1 = tp ∧ p.2 = o) := by
  induction ts with
  | nil => rfl
  | cons t ts ih =>
      simp only [commitTrace, commitEvents, pendingAll, List.count_append,
        List.countP_append, ih, List.count_cons, count_offsetCommitted_map]
      simp
end StreamThread

/-! ## Small structural lemmas about the worker operations -/

namespace StreamThread

theorem set_state_tasks (w : WorkerState) (ns : State) :
    (set_state w ns).1.tasks = w.tasks := rfl

theorem add_stream_tasks_state (w : WorkerState) (ps : List TopicPartition) :
    (add_stream_tasks w ps).state = w.state := rfl

theorem set_state_when_tasks (w : WorkerState) (ns : State) :
    (set_state_when_not_in_pending_shutdown w ns).1.tasks = w.tasks := by
  unfold set_state_when_not_in_pending_shutdown
  split <;> rfl

theorem set_state_when_state (w : WorkerState) (ns : State) :
    (set_state_when_not_in_pending_shutdown w ns).1.state
      = if w.state = State.PENDING_SHUTDOWN then w.state else ns := by
  unfold set_state_when_not_in_pending_shutdown
  split <;> simp_all [set_state]

theorem set_state_when_events (w : WorkerState) (ns : State) :
    ∀ e ∈ (set_state_when_not_in_pending_shutdown w ns).2,
      (∃ a b, e = Event.warnedTransition a b) ∨ (∃ a b, e = Event.infoTransition a b) := by
  unfold set_state_when_not_in_pending_shutdown set_state
  split
  · simp
  · intro e he
    simp only [List.mem_singleton] at he
    subst he
    split
    · exact Or.inl ⟨_, _, rfl⟩
    · exact Or.inr ⟨_, _, rfl⟩

end StreamThread

/-! ## The claims -/

/-- The legal-transitions table exactly as claim C5 states it, written from
the spec's words (to be compared against `State.valid_transition_to`, which is
transcribed from the source). -/
def specLegalTransition : StreamThread.State → StreamThread.State → Bool
  | .NOT_RUNNING, .RUNNING => true
  | .RUNNING, .PARTITIONS_REVOKED => true
  | .RUNNING, .PENDING_SHUTDOWN => true
  | .PARTITIONS_REVOKED, .ASSIGNING_PARTITIONS => true
  | .PARTITIONS_REVOKED, .PENDING_SHUTDOWN => true
  | .ASSIGNING_PARTITIONS, .RUNNING => true
  | .ASSIGNING_PARTITIONS, .PENDING_SHUTDOWN => true
  | .PENDING_SHUTDOWN, .NOT_RUNNING => true
  | _, _ => false

namespace StreamThread

/-- C5: for every pair of current state and requested state, `set_state`
applies the transition unconditionally, and the warning log line is emitted
iff the pair is not in the legal-transitions table of the claim. -/
theorem set_state_applies_and_warns_iff_illegal (w : WorkerState) (ns : State) :
    (set_state w ns).1.state = ns ∧
    (Event.warnedTransition w.state ns ∈ (set_state w ns).2
      ↔ specLegalTransition w.state ns = false) := by
  refine ⟨rfl, ?_⟩
  obtain ⟨ts, s, c⟩ := w
  cases s <;> cases ns <;>
    simp [set_state, specLegalTransition, State.valid_transition_to]

/-- C9: `close` always moves the state to PENDING_SHUTDOWN (no shutdown
guard) and closes the consumer; `is_running` holds exactly for RUNNING,
PARTITIONS_REVOKED and ASSIGNING_PARTITIONS, so `still_running` is false
right after `close` and the poll loop exits at its next check. -/
theorem close_forces_pending_shutdown_and_loop_stop (w : WorkerState) :
    (close w).1.state = State.PENDING_SHUTDOWN ∧
    (close w).1.consumerClosed = true ∧
    still_running (close w).1 = false ∧
    (∀ s : State, s.is_running = true
      ↔ (s = State.RUNNING ∨ s = State.PARTITIONS_REVOKED
          ∨ s = State.ASSIGNING_PARTITIONS)) := by
  refine ⟨rfl, rfl, rfl, ?_⟩
  intro s
  cases s <;> simp [State.is_running]

end StreamThread

/-- A task whose broker commit raises `CommitFailedException`. -/
def c3cfTask : StreamTask :=
  ⟨"task0", [⟨"t", 0⟩], [], [(⟨"t", 0⟩, 5)], some Exc.commitFailed⟩

/-- A task whose broker commit raises `KafkaException`. -/
def c3kTask : StreamTask :=
  ⟨"task1", [⟨"t", 1⟩], [], [(⟨"t", 1⟩, 7)], some Exc.kafka⟩

namespace StreamThread

/-- C3: the exception-handling policy of `StreamThread.commit` cannot take
effect: neither `CommitFailedException` nor `KafkaException` is bound in the
module namespace, so when `task.commit()` raises — recoverable or not — the
`except CommitFailedException` clause itself raises `NameError`, which
propagates; in particular a recoverable commit failure is not swallowed. -/
theorem commit_raises_nameError_on_task_commit_failure :
    (commit c3cfTask).2.2 = some Exc.nameError ∧
    (commit c3kTask).2.2 = some Exc.nameError ∧
    nameDefined "CommitFailedException" = false ∧
    nameDefined "KafkaException" = false := by decide

end StreamThread

/-- A polled record carrying a non-EOF per-record error. -/
def c2badRecord : KRecord := ⟨"t", 0, 0, "v", some (KError.otherErr 1)⟩

namespace StreamThread

theorem poll_requests_aux_stuck (r : KRecord) (c : Nat)
    (hr : r.error = some (KError.otherErr c)) :
    ∀ (fuel : Nat) (polls : List (Option KRecord)) (acc : List KRecord),
      poll_requests_aux fuel polls (some r) acc = none := by
  intro fuel
  induction fuel with
  | zero => intro polls acc; rfl
  | succ fuel ih =>
      intro polls acc
      simp only [poll_requests_aux, hr]
      exact ih polls acc

/-- C2: `poll_requests` does not terminate once it meets a record carrying a
per-record error other than PARTITION_EOF: the error branch logs but never
polls again, so the loop repeats the same state forever. Against the poll
stream `[error record, none]` — which per the claim should yield `[]` — the
loop finishes within no iteration budget at all. -/
theorem poll_requests_loops_forever_on_error_record :
    ∀ fuel : Nat, poll_requests [some c2badRecord, none] fuel = none := by
  intro fuel
  exact poll_requests_aux_stuck c2badRecord 1 rfl fuel [none] []

end StreamThread

/-- A worker holding one task whose broker commit raises `KafkaException`. -/
def c4badWorker : WorkerState :=
  ⟨[⟨"task0", [⟨"t", 0⟩], [], [(⟨"t", 0⟩, 3)], some Exc.kafka⟩], .RUNNING, false⟩

/-- A worker holding two tasks whose commits succeed. -/
def c4okWorker : WorkerState :=
  ⟨[⟨"task0", [⟨"t", 0⟩], [], [(⟨"t", 0⟩, 3)], none⟩,
    ⟨"task1", [⟨"t", 1⟩], [], [], none⟩], .RUNNING, false⟩

namespace StreamThread

/-- C4 counterexample: when the final `commitAll` of `run`'s `finally` block
raises (here the single task's commit fails), commit was attempted on every
task, yet the state is never forced to NOT_RUNNING — the claim's
unconditional guarantee fails. -/
theorem run_cleanup_skips_shutdown_when_commit_raises :
    Event.commitCalled "task0" ∈ (run_cleanup c4badWorker none).2.1 ∧
    (run_cleanup c4badWorker none).1.state = State.RUNNING ∧
    (run_cleanup c4badWorker none).1.state ≠ State.NOT_RUNNING ∧
    (run_cleanup c4badWorker none).2.2 = some Exc.nameError := by decide

/-- C4 amended: whenever the poll loop exits — normally or with an exception
`loopExc` propagating out of the loop body — and no task's commit raises
during the cleanup, commit is attempted on every task, the state is forced
to NOT_RUNNING, and the loop's exception (if any) is then re-raised. -/
theorem run_cleanup_commits_all_then_stops (w : WorkerState) (loopExc : Option Exc)
    (h : ∀ t ∈ w.tasks, t.commitFails = none) :
    (run_cleanup w loopExc).1.state = State.NOT_RUNNING ∧
    (∀ t ∈ w.tasks, Event.commitCalled t.task_id ∈ (run_cleanup w loopExc).2.1) ∧
    (run_cleanup w loopExc).2.2 = loopExc := by
  have hca := commitAll_of_ok w.tasks h
  refine ⟨?_, ?_, ?_⟩
  · simp [run_cleanup, hca, shutdown, set_state]
  · intro t ht
    simp only [run_cleanup, hca, shutdown, set_state, List.mem_append]
    exact Or.inl (commitCalled_mem_commitTrace _ _ ht)
  · simp [run_cleanup, hca]

theorem run_cleanup_commits_all_then_stops_witness :
    (∀ t ∈ c4okWorker.tasks, t.commitFails = none) ∧
    ((run_cleanup c4okWorker (some Exc.otherExc)).1.state = State.NOT_RUNNING ∧
     (∀ t ∈ c4okWorker.tasks,
        Event.commitCalled t.task_id ∈ (run_cleanup c4okWorker (some Exc.otherExc)).2.1) ∧
     (run_cleanup c4okWorker (some Exc.otherExc)).2.2 = some Exc.otherExc) :=
  ⟨by decide, run_cleanup_commits_all_then_stops c4okWorker (some Exc.otherExc) (by decide)⟩

end StreamThread

/-- A worker holding one task with a pending offset whose commit raises. -/
def c7badWorker : WorkerState :=
  ⟨[⟨"task0", [⟨"t", 0⟩], [], [(⟨"t", 0⟩, 3)], some Exc.kafka⟩], .RUNNING, false⟩

/-- A worker holding one task with a pending offset whose commit succeeds. -/
def c7okWorker : WorkerState :=
  ⟨[⟨"task0", [⟨"t", 0⟩], [], [(⟨"t", 0⟩, 3)], none⟩], .RUNNING, false⟩

namespace StreamThread

/-- C7 counterexample: when a task's commit raises inside `on_revoke`'s
`commitAll`, the exception propagates before `self.tasks = []` runs: the task
set is NOT left empty, and the pending offset was not committed — the
claim's "always" fails. -/
theorem on_revoke_keeps_tasks_when_commit_raises :
    (on_revoke c7badWorker).1.tasks ≠ [] ∧
    (on_revoke c7badWorker).2.2 = some Exc.nameError ∧
    (on_revoke c7badWorker).2.1.count (Event.offsetCommitted ⟨"t", 0⟩ 3) = 0 := by
  decide

/-- C7 amended: when no task's commit raises, `on_revoke` commits every task,
transitions to PARTITIONS_REVOKED unless the state is PENDING_SHUTDOWN (then
unchanged), leaves the task set empty, and each previously-pending offset is
committed exactly as many times as it was pending across the revoked tasks —
in particular exactly once for an offset pending in exactly one task. -/
theorem on_revoke_commits_once_then_clears (w : WorkerState)
    (h : ∀ t ∈ w.tasks, t.commitFails = none) :
    (on_revoke w).1.tasks = [] ∧
    (on_revoke w).1.state
      = (if w.state = State.PENDING_SHUTDOWN then w.state else State.PARTITIONS_REVOKED) ∧
    (∀ t ∈ w.tasks, Event.commitCalled t.task_id ∈ (on_revoke w).2.1) ∧
    (∀ (tp : TopicPartition) (o : Nat),
      ((on_revoke w).2.1.count (Event.offsetCommitted tp o))
        = (pendingAll w.tasks).countP (fun p => p.1 = tp ∧ p.2 = o)) := by
  have hca := commitAll_of_ok w.tasks h
  refine ⟨?_, ?_, ?_, ?_⟩
  · simp [on_revoke, hca]
  · simp only [on_revoke, hca]
    have := set_state_when_state { w with tasks := w.tasks.map clearPending }
      State.PARTITIONS_REVOKED
    simpa using this
  · intro t ht
    simp only [on_revoke, hca, List.mem_append]
    exact Or.inl (commitCalled_mem_commitTrace _ _ ht)
  · intro tp o
    simp only [on_revoke, hca]
    rw [List.count_append]
    rw [count_offsetCommitted_commitTrace]
    have hz : (set_state_when_not_in_pending_shutdown
        { w with tasks := w.tasks.map clearPending } State.PARTITIONS_REVOKED).2.count
        (Event.offsetCommitted tp o) = 0 := by
      rw [List.count_eq_zero]
      intro hmem
      rcases set_state_when_events _ _ _ hmem with ⟨a, b, hab⟩ | ⟨a, b, hab⟩ <;> cases hab
    omega

theorem on_revoke_commits_once_then_clears_witness :
    (∀ t ∈ c7okWorker.tasks, t.commitFails = none) ∧
    ((on_revoke c7okWorker).1.tasks = [] ∧
     (on_revoke c7okWorker).1.state
       = (if c7okWorker.state = State.PENDING_SHUTDOWN then c7okWorker.state
          else State.PARTITIONS_REVOKED) ∧
     (∀ t ∈ c7okWorker.tasks,
        Event.commitCalled t.task_id ∈ (on_revoke c7okWorker).2.1) ∧
     (∀ (tp : TopicPartition) (o : Nat),
       ((on_revoke c7okWorker).2.1.count (Event.offsetCommitted tp o))
         = (pendingAll c7okWorker.tasks).countP (fun p => p.1 = tp ∧ p.2 = o))) :=
  ⟨by decide, on_revoke_commits_once_then_clears c7okWorker (by decide)⟩

end StreamThread

/-- A worker already holding a task with an uncommitted (pending) offset. -/
def c10worker : WorkerState :=
  ⟨[⟨"task0", [⟨"t", 0⟩], [], [(⟨"t", 0⟩, 9)], none⟩], .RUNNING, false⟩

namespace StreamThread

/-- C10: when `on_assign` runs while the worker already holds a non-empty
task set, `add_stream_tasks` simply replaces `self.tasks` with freshly
constructed tasks (empty queues, no pending offsets); no commit is invoked
and no offset is persisted, so the old tasks' uncommitted offsets are
discarded. -/
theorem on_assign_discards_old_tasks_without_commit (w : WorkerState)
    (ps : List TopicPartition) (hne : w.tasks ≠ []) :
    (on_assign w ps).1.tasks
      = (grouped_tasks ps).map (fun p => StreamTask.new p.1 p.2) ∧
    (∀ t ∈ (on_assign w ps).1.tasks, t.queue = [] ∧ t.pendingOffsets = []) ∧
    (∀ i : String, Event.commitCalled i ∉ (on_assign w ps).2) ∧
    (∀ (tp : TopicPartition) (o : Nat),
      Event.offsetCommitted tp o ∉ (on_assign w ps).2) := by
  have htasks : (on_assign w ps).1.tasks
      = (grouped_tasks ps).map (fun p => StreamTask.new p.1 p.2) := by
    simp only [on_assign]
    rw [set_state_when_tasks]
    rfl
  have hev : ∀ e ∈ (on_assign w ps).2,
      (∃ a b, e = Event.warnedTransition a b) ∨ (∃ a b, e = Event.infoTransition a b) := by
    intro e he
    simp only [on_assign, List.mem_append] at he
    rcases he with he | he
    · exact set_state_when_events _ _ _ he
    · exact set_state_when_events _ _ _ he
  refine ⟨htasks, ?_, ?_, ?_⟩
  · intro t ht
    rw [htasks] at ht
    obtain ⟨p, _, hp⟩ := List.mem_map.mp ht
    exact hp ▸ ⟨rfl, rfl⟩
  · intro i hmem
    rcases hev _ hmem with ⟨a, b, hab⟩ | ⟨a, b, hab⟩ <;> cases hab
  · intro tp o hmem
    rcases hev _ hmem with ⟨a, b, hab⟩ | ⟨a, b, hab⟩ <;> cases hab

theorem on_assign_discards_old_tasks_without_commit_witness :
    c10worker.tasks ≠ [] ∧
    ((on_assign c10worker [⟨"a", 0⟩]).1.tasks
       = (grouped_tasks [⟨"a", 0⟩]).map (fun p => StreamTask.new p.1 p.2) ∧
     (∀ t ∈ (on_assign c10worker [⟨"a", 0⟩]).1.tasks,
        t.queue = [] ∧ t.pendingOffsets = []) ∧
     (∀ i : String, Event.commitCalled i ∉ (on_assign c10worker [⟨"a", 0⟩]).2) ∧
     (∀ (tp : TopicPartition) (o : Nat),
       Event.offsetCommitted tp o ∉ (on_assign c10worker [⟨"a", 0⟩]).2)) :=
  ⟨by decide, on_assign_discards_old_tasks_without_commit c10worker [⟨"a", 0⟩] (by decide)⟩

/-- C6: given an assignment of pairwise-distinct topic-partitions, `on_assign`
builds exactly one task per partition — the i-th task owning exactly the i-th
assigned partition, nothing else — and the state ends at RUNNING unless it
was PENDING_SHUTDOWN at call time, in which case it is unchanged. -/
theorem on_assign_builds_one_task_per_partition (w : WorkerState)
    (ps : List TopicPartition) (h : ps.Nodup) :
    (on_assign w ps).1.tasks.length = ps.length ∧
    (on_assign w ps).1.tasks.map (fun t => t.partitions) = ps.map (fun tp => [tp]) ∧
    (on_assign w ps).1.state
      = (if w.state = State.PENDING_SHUTDOWN then w.state else State.RUNNING) := by
  have htasks : (on_assign w ps).1.tasks
      = ps.map (fun tp => StreamTask.new (taskKey tp) [tp]) := by
    simp only [on_assign]
    rw [set_state_when_tasks]
    show (add_stream_tasks _ ps).tasks = _
    simp only [add_stream_tasks, grouped_tasks_of_nodup ps h, List.map_map]
    rfl
  refine ⟨?_, ?_, ?_⟩
  · rw [htasks, List.length_map]
  · rw [htasks, List.map_map]
    rfl
  · simp only [on_assign]
    rw [set_state_when_state, add_stream_tasks_state, set_state_when_state]
    by_cases hps : w.state = State.PENDING_SHUTDOWN
    · simp [hps]
    · simp [hps]

theorem on_assign_builds_one_task_per_partition_witness :
    ([⟨"a", 0⟩, ⟨"a", 1⟩] : List TopicPartition).Nodup ∧
    ((on_assign ⟨[], .PARTITIONS_REVOKED, false⟩ [⟨"a", 0⟩, ⟨"a", 1⟩]).1.tasks.length
       = ([⟨"a", 0⟩, ⟨"a", 1⟩] : List TopicPartition).length ∧
     (on_assign ⟨[], .PARTITIONS_REVOKED, false⟩ [⟨"a", 0⟩, ⟨"a", 1⟩]).1.tasks.map
         (fun t => t.partitions)
       = ([⟨"a", 0⟩, ⟨"a", 1⟩] : List TopicPartition).map (fun tp => [tp]) ∧
     (on_assign ⟨[], .PARTITIONS_REVOKED, false⟩ [⟨"a", 0⟩, ⟨"a", 1⟩]).1.state
       = (if (⟨[], .PARTITIONS_REVOKED, false⟩ : WorkerState).state
             = State.PENDING_SHUTDOWN
          then (⟨[], .PARTITIONS_REVOKED, false⟩ : WorkerState).state
          else State.RUNNING)) :=
  ⟨by decide,
   on_assign_builds_one_task_per_partition ⟨[], .PARTITIONS_REVOKED, false⟩
     [⟨"a", 0⟩, ⟨"a", 1⟩] (by decide)⟩

end StreamThread

/-- A worker whose task set was built from the assignment
`[("t",1), ("t",0)]` — both partitions present, but not enumerated as
`0, 1`. -/
def c1worker : WorkerState :=
  StreamThread.add_stream_tasks ⟨[], .RUNNING, false⟩ [⟨"t", 1⟩, ⟨"t", 0⟩]

/-- An error-free record on topic-partition `("t", 0)`. -/
def c1record : KRecord := ⟨"t", 0, 7, "v", none⟩

namespace StreamThread

/-- C1 counterexample: the task set was built by `add_stream_tasks` from an
assignment containing the record's partition `("t",0)`, yet
`add_records_to_tasks` delivers the record to the task owning `("t",1)`
(list index 0) and the task owning `("t",0)` receives nothing: routing is by
list position `record.partition()`, not by ownership. -/
theorem add_records_misroutes_on_unordered_assignment :
    (add_records_to_tasks c1worker [c1record]).1.tasks.map
        (fun tk => (tk.partitions, tk.queue))
      = [([⟨"t", 1⟩], [c1record]), ([⟨"t", 0⟩], [])] := by decide

theorem map_set_same {α : Type} (f : StreamTask → α) (ts : List StreamTask)
    (i : Nat) (hi : i < ts.length) (v : StreamTask)
    (hfv : f v = f (ts.get ⟨i, hi⟩)) : (ts.set i v).map f = ts.map f := by
  rw [List.map_set, hfv]
  apply List.ext_getElem (by simp)
  intro j h1 h2
  simp only [List.getElem_set, List.getElem_map, List.get_eq_getElem]
  split
  · next hij => subst hij; rfl
  · rfl

/-- C1 amended: `add_records_to_tasks` delivers each record to the task at
list index `record.partition()`; when the task set was built by
`add_stream_tasks` from an assignment enumerating the partitions of the
record's topic in increasing order `0..n-1`, that task is precisely the one
owning the record's topic-partition, and no other task receives anything. -/
theorem add_records_routes_by_list_index (w : WorkerState) (n : Nat) (r : KRecord)
    (hp : r.partition < n) :
    (add_records_to_tasks
        (add_stream_tasks w ((List.range n).map (fun i => ⟨r.topic, i⟩))) [r]).2
      = none ∧
    (add_records_to_tasks
        (add_stream_tasks w ((List.range n).map (fun i => ⟨r.topic, i⟩))) [r]).1.tasks.map
        (fun tk => (tk.partitions, tk.queue))
      = (List.range n).map (fun i =>
          ([(⟨r.topic, i⟩ : TopicPartition)], if i = r.partition then [r] else [])) := by
  have hinj : Function.Injective (fun i : Nat => (⟨r.topic, i⟩ : TopicPartition)) := by
    intro a b hab
    simpa using hab
  have hnodup : ((List.range n).map (fun i => (⟨r.topic, i⟩ : TopicPartition))).Nodup :=
    (List.nodup_range n).map hinj
  have htasks : (add_stream_tasks w ((List.range n).map (fun i => ⟨r.topic, i⟩))).tasks
      = (List.range n).map
          (fun i => StreamTask.new (taskKey ⟨r.topic, i⟩) [⟨r.topic, i⟩]) := by
    simp only [add_stream_tasks, grouped_tasks_of_nodup _ hnodup, List.map_map]
    rfl
  have hlen : (add_stream_tasks w ((List.range n).map (fun i => ⟨r.topic, i⟩))).tasks.length
      = n := by
    rw [htasks, List.length_map, List.length_range]
  have hplen : r.partition
      < (add_stream_tasks w ((List.range n).map (fun i => ⟨r.topic, i⟩))).tasks.length := by
    rw [hlen]; exact hp
  constructor
  · simp only [add_records_to_tasks, addRecordsAux, dif_pos hplen]
  · simp only [add_records_to_tasks, addRecordsAux, dif_pos hplen]
    rw [List.map_set]
    apply List.ext_getElem
    · simp [htasks]
    · intro j h1 h2
      have hjn : j < n := by
        simpa using h2
      simp only [List.getElem_set, List.getElem_map, List.getElem_range, List.get_eq_getElem]
      split
      · next hij =>
          have hj : j = r.partition := hij.symm
          simp only [htasks, List.getElem_map, List.getElem_range, StreamTask.add_records,
            StreamTask.new, hj]
          simp
      · next hij =>
          have hj : j ≠ r.partition := fun hh => hij hh.symm
          simp only [htasks, List.getElem_map, List.getElem_range, StreamTask.new]
          simp [hj]

theorem add_records_routes_by_list_index_witness :
    (1 : Nat) < 2 ∧
    ((add_records_to_tasks
        (add_stream_tasks ⟨[], .RUNNING, false⟩
          ((List.range 2).map (fun i => ⟨(⟨"t", 1, 0, "v", none⟩ : KRecord).topic, i⟩)))
        [⟨"t", 1, 0, "v", none⟩]).2 = none ∧
     (add_records_to_tasks
        (add_stream_tasks ⟨[], .RUNNING, false⟩
          ((List.range 2).map (fun i => ⟨(⟨"t", 1, 0, "v", none⟩ : KRecord).topic, i⟩)))
        [⟨"t", 1, 0, "v", none⟩]).1.tasks.map (fun tk => (tk.partitions, tk.queue))
       = (List.range 2).map (fun i =>
           ([(⟨(⟨"t", 1, 0, "v", none⟩ : KRecord).topic, i⟩ : TopicPartition)],
            if i = (⟨"t", 1, 0, "v", none⟩ : KRecord).partition then [⟨"t", 1, 0, "v", none⟩]
            else []))) :=
  ⟨by decide,
   add_records_routes_by_list_index ⟨[], .RUNNING, false⟩ 2 ⟨"t", 1, 0, "v", none⟩ (by decide)⟩

end StreamThread

/-- The identity-and-environment part of a task that routing and processing
never touch: its id and its broker commit behaviour. -/
def taskMeta (t : StreamTask) : String × Option Exc := (t.task_id, t.commitFails)

/-- A worker with one task that has a pending (uncommitted) offset. -/
def c8worker : WorkerState :=
  ⟨[⟨"task0", [⟨"t", 0⟩], [], [(⟨"t", 0⟩, 3)], none⟩], .RUNNING, false⟩

/-- A worker with one task and no pending offsets, for the C8 witness. -/
def c8okWorker : WorkerState :=
  ⟨[⟨"task0", [⟨"t", 0⟩], [], [], none⟩], .RUNNING, false⟩

namespace StreamThread

/-- C8 counterexample: an iteration whose poll returned no records does
nothing at all — `if records:` skips routing, processing, punctuation and
commit — even though the task reports `commitNeeded()`. -/
theorem empty_poll_skips_punctuate_and_commit :
    run_iteration c8worker [] = (c8worker, [], none) ∧
    c8worker.tasks.map StreamTask.commitNeeded = [true] := by decide

theorem addRecordsAux_meta (rs : List KRecord) : ∀ ts : List StreamTask,
    (addRecordsAux ts rs).1.map taskMeta = ts.map taskMeta ∧
    ((∀ r ∈ rs, r.partition < ts.length) → (addRecordsAux ts rs).2 = none) := by
  induction rs with
  | nil => intro ts; exact ⟨rfl, fun _ => rfl⟩
  | cons r rs ih =>
      intro ts
      by_cases h : r.partition < ts.length
      · have hstep : addRecordsAux ts (r :: rs)
            = addRecordsAux (ts.set r.partition
                ((ts.get ⟨r.partition, h⟩).add_records [r])) rs := by
          simp only [addRecordsAux, dif_pos h]
        have hmeta : (ts.set r.partition ((ts.get ⟨r.partition, h⟩).add_records [r])).map
            taskMeta = ts.map taskMeta :=
          map_set_same taskMeta ts r.partition h _ rfl
        have hlen : (ts.set r.partition ((ts.get ⟨r.partition, h⟩).add_records [r])).length
            = ts.length := List.length_set ts _ _
        rw [hstep]
        refine ⟨(ih _).1.trans hmeta, fun hall => ?_⟩
        refine (ih _).2 (fun r2 hr2 => ?_)
        rw [hlen]
        exact hall r2 (List.mem_cons_of_mem r hr2)
      · have hstep : addRecordsAux ts (r :: rs) = (ts, some Exc.indexError) := by
          simp only [addRecordsAux, dif_neg h]
        rw [hstep]
        exact ⟨rfl, fun hall => absurd (hall r (List.mem_cons_self r rs)) h⟩

theorem process_meta (t : StreamTask) : taskMeta t.process.2 = taskMeta t := by
  unfold StreamTask.process
  cases t.queue <;> rfl

theorem process_round_meta (ts : List StreamTask) :
    (process_round ts).1.map taskMeta = ts.map taskMeta := by
  induction ts with
  | nil => rfl
  | cons t ts ih =>
      simp only [process_round, List.map_cons, ih, process_meta]

theorem process_of_no_progress (t : StreamTask) (h : t.process.1 = false) :
    t.process.2 = t := by
  cases hq : t.queue with
  | nil => simp [StreamTask.process, hq]
  | cons a l =>
      exfalso
      rw [StreamTask.process, hq] at h
      simp at h

theorem process_round_zero_fixes (ts : List StreamTask)
    (h : (process_round ts).2 = 0) : (process_round ts).1 = ts := by
  induction ts with
  | nil => rfl
  | cons t ts ih =>
      simp only [process_round] at h ⊢
      cases hp : t.process.1 with
      | true =>
          rw [hp] at h
          simp at h
      | false =>
          rw [hp] at h
          simp only [Bool.false_eq_true, if_false, Nat.zero_add] at h
          rw [process_of_no_progress t hp, ih h]

theorem process_loop_unfold (ts : List StreamTask) :
    process_loop ts
      = (if (process_round ts).2 = 0 then (process_round ts).1
         else process_loop (process_round ts).1) := by
  rw [process_loop]

theorem process_loop_meta_aux : ∀ (fuel : Nat) (ts : List StreamTask),
    totalQueued ts ≤ fuel →
    (process_loop ts).map taskMeta = ts.map taskMeta ∧
    (process_round (process_loop ts)).2 = 0 := by
  intro fuel
  induction fuel with
  | zero =>
      intro ts hq
      have hz : (process_round ts).2 = 0 := by
        have := process_round_totalQueued ts
        omega
      rw [process_loop_unfold, if_pos hz, process_round_zero_fixes ts hz]
      exact ⟨rfl, hz⟩
  | succ fuel ih =>
      intro ts hq
      by_cases hz : (process_round ts).2 = 0
      · rw [process_loop_unfold, if_pos hz, process_round_zero_fixes ts hz]
        exact ⟨rfl, hz⟩
      · rw [process_loop_unfold, if_neg hz]
        have hlt : totalQueued (process_round ts).1 ≤ fuel := by
          have := process_round_totalQueued ts
          omega
        obtain ⟨h1, h2⟩ := ih _ hlt
        exact ⟨h1.trans (process_round_meta ts), h2⟩

theorem process_loop_meta (ts : List StreamTask) :
    (process_loop ts).map taskMeta = ts.map taskMeta :=
  (process_loop_meta_aux (totalQueued ts) ts le_rfl).1

theorem process_loop_fixpoint (ts : List StreamTask) :
    (process_round (process_loop ts)).2 = 0 :=
  (process_loop_meta_aux (totalQueued ts) ts le_rfl).2

theorem punctuate_and_commit_cons_ok (t : StreamTask) (ts : List StreamTask)
    (ht : t.commitFails = none) :
    punctuate_and_commit (t :: ts)
      = (if t.commitNeeded then
           (clearPending t :: (punctuate_and_commit ts).1,
            Event.punctuateCalled t.task_id
              :: (commitEvents t ++ (punctuate_and_commit ts).2.1),
            (punctuate_and_commit ts).2.2)
         else
           (t :: (punctuate_and_commit ts).1,
            Event.punctuateCalled t.task_id :: (punctuate_and_commit ts).2.1,
            (punctuate_and_commit ts).2.2)) := by
  by_cases hcn : t.commitNeeded = true
  · simp [punctuate_and_commit, StreamTask.maybe_punctuate, hcn, commit_of_ok t ht]
  · simp [punctuate_and_commit, StreamTask.maybe_punctuate, hcn]

theorem punctuate_and_commit_ok (ts : List StreamTask)
    (h : ∀ t ∈ ts, t.commitFails = none) :
    (punctuate_and_commit ts).2.2 = none ∧
    (∀ t ∈ ts, Event.punctuateCalled t.task_id ∈ (punctuate_and_commit ts).2.1 ∧
      (t.commitNeeded = true →
        Event.commitCalled t.task_id ∈ (punctuate_and_commit ts).2.1)) := by
  induction ts with
  | nil => exact ⟨rfl, by simp⟩
  | cons t ts ih =>
      have ht : t.commitFails = none := h t (List.mem_cons_self t ts)
      have hrest := ih (fun t2 ht2 => h t2 (List.mem_cons_of_mem t ht2))
      rw [punctuate_and_commit_cons_ok t ts ht]
      by_cases hcn : t.commitNeeded = true
      · rw [if_pos hcn]
        refine ⟨hrest.1, ?_⟩
        intro t2 ht2
        rcases List.mem_cons.mp ht2 with h2 | h2
        · subst h2
          refine ⟨by simp, fun _ => ?_⟩
          simp [commitEvents]
        · obtain ⟨hp, hcm⟩ := hrest.2 t2 h2
          refine ⟨?_, fun hneed => ?_⟩
          · simp only [List.mem_cons, List.mem_append]
            tauto
          · have := hcm hneed
            simp only [List.mem_cons, List.mem_append]
            tauto
      · rw [if_neg hcn]
        refine ⟨hrest.1, ?_⟩
        intro t2 ht2
        rcases List.mem_cons.mp ht2 with h2 | h2
        · subst h2
          exact ⟨by simp, fun hneed => absurd hneed hcn⟩
        · obtain ⟨hp, hcm⟩ := hrest.2 t2 h2
          refine ⟨?_, fun hneed => ?_⟩
          · simp only [List.mem_cons]
            tauto
          · have := hcm hneed
            simp only [List.mem_cons]
            tauto

/-- C8 amended: in every poll-loop iteration whose batch is nonempty (the
`if records:` guard skips everything otherwise), once the batch is routed the
tasks are repeatedly asked to process one record each until a round makes
zero progress; then — provided no commit raises — every task's
`maybe_punctuate` is invoked and every task whose `commitNeeded()` holds is
committed. -/
theorem nonempty_batch_is_processed_punctuated_committed (w : WorkerState)
    (records : List KRecord) (hne : records ≠ [])
    (hroute : ∀ r ∈ records, r.partition < w.tasks.length)
    (hcommit : ∀ t ∈ w.tasks, t.commitFails = none) :
    run_iteration w records
      = process_and_punctuate (add_records_to_tasks w records).1 ∧
    (add_records_to_tasks w records).2 = none ∧
    (process_round (process_loop (add_records_to_tasks w records).1.tasks)).2 = 0 ∧
    (process_loop (add_records_to_tasks w records).1.tasks).map (fun t => t.task_id)
      = w.tasks.map (fun t => t.task_id) ∧
    (∀ t ∈ process_loop (add_records_to_tasks w records).1.tasks,
       Event.punctuateCalled t.task_id ∈ (run_iteration w records).2.1 ∧
       (t.commitNeeded = true →
         Event.commitCalled t.task_id ∈ (run_iteration w records).2.1)) ∧
    (run_iteration w records).2.2 = none := by
  have hmeta1 := (addRecordsAux_meta records w.tasks).1
  have ha2 : (add_records_to_tasks w records).2 = none :=
    (addRecordsAux_meta records w.tasks).2 hroute
  have hie : records.isEmpty = false := by
    cases records with
    | nil => exact absurd rfl hne
    | cons a l => rfl
  have hrun : run_iteration w records
      = process_and_punctuate (add_records_to_tasks w records).1 := by
    unfold run_iteration
    rw [hie]
    simp only [Bool.false_eq_true, if_false]
    unfold add_records_to_tasks at ha2 ⊢
    rw [ha2]
  have hmeta2 : (process_loop (add_records_to_tasks w records).1.tasks).map taskMeta
      = w.tasks.map taskMeta := by
    rw [process_loop_meta]
    exact hmeta1
  have hcommit2 : ∀ t ∈ process_loop (add_records_to_tasks w records).1.tasks,
      t.commitFails = none := by
    intro t ht
    have : taskMeta t ∈ (process_loop (add_records_to_tasks w records).1.tasks).map
        taskMeta := List.mem_map_of_mem taskMeta ht
    rw [hmeta2] at this
    obtain ⟨t0, ht0, hm⟩ := List.mem_map.mp this
    have : t.commitFails = t0.commitFails := by
      have := congrArg Prod.snd hm
      simpa [taskMeta] using this.symm
    rw [this]
    exact hcommit t0 ht0
  have hids : (process_loop (add_records_to_tasks w records).1.tasks).map
      (fun t => t.task_id) = w.tasks.map (fun t => t.task_id) := by
    have := congrArg (List.map Prod.fst) hmeta2
    simpa [List.map_map, taskMeta, Function.comp] using this
  have hpc := punctuate_and_commit_ok _ hcommit2
  have hevents : (run_iteration w records).2.1
      = (punctuate_and_commit
          (process_loop (add_records_to_tasks w records).1.tasks)).2.1 := by
    rw [hrun]
    rfl
  have hexc : (run_iteration w records).2.2
      = (punctuate_and_commit
          (process_loop (add_records_to_tasks w records).1.tasks)).2.2 := by
    rw [hrun]
    rfl
  refine ⟨hrun, ha2, process_loop_fixpoint _, hids, ?_, ?_⟩
  · intro t ht
    obtain ⟨hp, hcm⟩ := hpc.2 t ht
    rw [hevents]
    exact ⟨hp, hcm⟩
  · rw [hexc]
    exact hpc.1

theorem nonempty_batch_is_processed_punctuated_committed_witness :
    ([(⟨"t", 0, 0, "v", none⟩ : KRecord)] ≠ []) ∧
    (∀ r ∈ [(⟨"t", 0, 0, "v", none⟩ : KRecord)], r.partition < c8okWorker.tasks.length) ∧
    (∀ t ∈ c8okWorker.tasks, t.commitFails = none) ∧
    (run_iteration c8okWorker [⟨"t", 0, 0, "v", none⟩]
       = process_and_punctuate
           (add_records_to_tasks c8okWorker [⟨"t", 0, 0, "v", none⟩]).1 ∧
     (add_records_to_tasks c8okWorker [⟨"t", 0, 0, "v", none⟩]).2 = none ∧
     (process_round (process_loop
         (add_records_to_tasks c8okWorker [⟨"t", 0, 0, "v", none⟩]).1.tasks)).2 = 0 ∧
     (process_loop (add_records_to_tasks c8okWorker
         [⟨"t", 0, 0, "v", none⟩]).1.tasks).map (fun t => t.task_id)
       = c8okWorker.tasks.map (fun t => t.task_id) ∧
     (∀ t ∈ process_loop (add_records_to_tasks c8okWorker
          [⟨"t", 0, 0, "v", none⟩]).1.tasks,
        Event.punctuateCalled t.task_id
          ∈ (run_iteration c8okWorker [⟨"t", 0, 0, "v", none⟩]).2.1 ∧
        (t.commitNeeded = true →
          Event.commitCalled t.task_id
            ∈ (run_iteration c8okWorker [⟨"t", 0, 0, "v", none⟩]).2.1)) ∧
     (run_iteration c8okWorker [⟨"t", 0, 0, "v", none⟩]).2.2 = none) :=
  ⟨by decide, by decide, by decide,
   nonempty_batch_is_processed_punctuated_committed c8okWorker
     [⟨"t", 0, 0, "v", none⟩] (by decide) (by decide) (by decide)⟩

end StreamThread
